import Mathlib

/-!
Verification of the rrwm tiling window manager's layout and focus engine.

The definitions below are a shallow embedding of the Rust source:
- `src/wm/layout.rs`: the BSP tree (`LayoutNode`) and its operations
  `insert_at`, `remove_at`, `swap_windows`, `calculate_layout`.
- `src/wm/actions.rs`: `get_occupied_tags`, `get_occupied_tags_for_monitor`,
  `find_edge_in_tree`, `cycle_tag`, `broadcast_status`, the float-cascade
  placement of `Action::ToggleFloat`.
- `src/wm/mod.rs`: the `Dimensions` window-event handler.

Machine integers (`i32`, `u32`, `u8`) are modelled as `Int`/`Nat`; the
`f32` split `ratio` is modelled as `Rat`, with `as i32` casts rendered as
truncation toward zero (exact for the magnitudes the program handles).
Wayland object ids are modelled as `Nat`, monitor names as `String`.
-/

set_option maxHeartbeats 1000000

/-- `SplitType` from layout.rs. -/
inductive SplitType where
  | horizontal
  | vertical
deriving DecidableEq, Repr

/-- `Direction` from layout.rs. -/
inductive Direction where
  | left
  | right
  | up
  | down
deriving DecidableEq, Repr

/-- `Geometry` from layout.rs (i32 fields as Int). -/
structure Geometry where
  x : Int
  y : Int
  w : Int
  h : Int
deriving DecidableEq, Repr

/-- `WindowData` from src/wm/mod.rs (protocol proxy handles omitted;
the opaque `ObjectId` is a Nat). -/
structure WindowData where
  id : Nat
  tags : Nat
  app_id : Option String
  output : Option String
  is_fullscreen : Bool
  layout_retry_count : Nat
  last_proposed_w : Int
  last_proposed_h : Int
  is_floating : Bool
  float_geo : Geometry
deriving DecidableEq, Repr

/-- `LayoutNode` from layout.rs; the f32 ratio is modelled as Rat. -/
inductive LayoutNode where
  | window (w_data : WindowData)
  | container (split_type : SplitType) (ratio : Rat)
      (left_child : LayoutNode) (right_child : LayoutNode)
deriving DecidableEq, Repr

namespace LayoutNode

/-- `LayoutNode::insert_at` from layout.rs. The Rust method mutates
`&mut self` and returns `bool`; here it returns the new tree paired with
that bool. The `||` short-circuit means the right child is only tried
(and possibly modified) when the left child reported failure. -/
def insert_at : LayoutNode → Nat → WindowData → SplitType → LayoutNode × Bool
  | window w_data, target_id, new_win, split =>
    if w_data.id = target_id then
      (container split (1/2) (window w_data) (window new_win), true)
    else
      (window w_data, false)
  | container st ra lc rc, target_id, new_win, split =>
    let resL := lc.insert_at target_id new_win split
    if resL.2 then
      (container st ra resL.1 rc, true)
    else
      let resR := rc.insert_at target_id new_win split
      (container st ra lc resR.1, resR.2)

/-- `LayoutNode::remove_at` from layout.rs. -/
def remove_at : LayoutNode → Nat → Option LayoutNode
  | window w_data, target_id =>
    if w_data.id = target_id then none else some (window w_data)
  | container st ra lc rc, target_id =>
    match lc.remove_at target_id, rc.remove_at target_id with
    | some l, some r => some (container st ra l r)
    | none, some r => some r
    | some l, none => some l
    | none, none => none

/-- Inner `find_data` of `LayoutNode::swap_windows` from layout.rs. -/
def find_data : LayoutNode → Nat → Option WindowData
  | window w, target => if w.id = target then some w else none
  | container _ _ lc rc, target =>
    match lc.find_data target with
    | some d => some d
    | none => rc.find_data target

/-- Inner `perform_swap` of `LayoutNode::swap_windows` from layout.rs. -/
def perform_swap : LayoutNode → Nat → WindowData → Nat → WindowData → LayoutNode
  | window w, id1, d1, id2, d2 =>
    if w.id = id1 then window d2
    else if w.id = id2 then window d1
    else window w
  | container st ra lc rc, id1, d1, id2, d2 =>
    container st ra (lc.perform_swap id1 d1 id2 d2) (rc.perform_swap id1 d1 id2 d2)

/-- `LayoutNode::swap_windows` from layout.rs: look both ids up first,
then swap in a single traversal; if either is absent, do nothing. -/
def swap_windows (node : LayoutNode) (id1 id2 : Nat) : LayoutNode :=
  match node.find_data id1, node.find_data id2 with
  | some d1, some d2 => node.perform_swap id1 d1 id2 d2
  | _, _ => node

/-- The leaves of a tree in left-to-right order. -/
def leaves : LayoutNode → List WindowData
  | window w => [w]
  | container _ _ lc rc => lc.leaves ++ rc.leaves

/-- Whether some leaf of the tree carries the given window id
(the search pattern shared by `insert_at` / `remove_at` / `tree_contains`). -/
def occursId : LayoutNode → Nat → Bool
  | window w, target => w.id == target
  | container _ _ lc rc, target => lc.occursId target || rc.occursId target

/-- Shape of a tree: its container skeleton with split types and ratios,
leaf payloads erased. Used to state that `swap_windows` preserves the
tree structure. -/
inductive TreeShape where
  | leaf
  | node (split_type : SplitType) ( ratio : Rat) (l : TreeShape) (r : TreeShape)
deriving DecidableEq, Repr

/-- Erase the leaf payloads of a tree, keeping splits and ratios. -/
def shape : LayoutNode → TreeShape
  | window _ => TreeShape.leaf
  | container st ra lc rc => TreeShape.node st ra (shape lc) (shape rc)

/-- The leaf-payload action of one `swap_windows` call that found `d1`
at `id1` and `d2` at `id2`. -/
def swapFn (id1 : Nat) (d1 : WindowData) (id2 : Nat) (d2 : WindowData)
    (w : WindowData) : WindowData :=
  if w.id = id1 then d2 else if w.id = id2 then d1 else w

/-- Replace the first leaf (in left-to-right order) whose window id is
`target` by `repl` applied to that leaf's data, leaving every other node
unchanged. This follows the spec's wording for `insert_at` and is compared
against the source `insert_at` in C8. -/
def replaceFirstLeaf : LayoutNode → Nat → (WindowData → LayoutNode) → LayoutNode
  | window w, target, repl => if w.id = target then repl w else window w
  | container st ra lc rc, target, repl =>
    if lc.occursId target then container st ra (replaceFirstLeaf lc target repl) rc
    else container st ra lc (replaceFirstLeaf rc target repl)

/-- Rust i32 `/`: truncation toward zero. -/
def i32Div (a b : Int) : Int := Int.tdiv a b

/-- Rust `as i32` applied to an exactly-represented fractional value:
truncation toward zero of a rational. This renders
`(area.w as f32 * ratio) as i32` with the f32 product modelled exactly. -/
def ratTruncToInt (q : Rat) : Int := Int.tdiv q.num (q.den : Int)

/-- `calculate_layout` from layout.rs. Emits one `(leaf, rectangle)` pair
per leaf in left-to-right order. -/
def calculate_layout : LayoutNode → Geometry → List (WindowData × Geometry)
  | window w_data, area => [(w_data, area)]
  | container st ra lc rc, area =>
    if st = SplitType.vertical then
      let left_w := ratTruncToInt ((area.w : Rat) * ra)
      calculate_layout lc { area with w := left_w } ++
        calculate_layout rc { area with x := area.x + left_w, w := area.w - left_w }
    else
      let top_h := ratTruncToInt ((area.h : Rat) * ra)
      calculate_layout lc { area with h := top_h } ++
        calculate_layout rc { area with y := area.y + top_h, h := area.h - top_h }

end LayoutNode

open LayoutNode

/-- A point lies inside a rectangle (half-open on both axes). -/
def memRect (g : Geometry) (p : Int × Int) : Prop :=
  g.x ≤ p.1 ∧ p.1 < g.x + g.w ∧ g.y ≤ p.2 ∧ p.2 < g.y + g.h

instance (g : Geometry) (p : Int × Int) : Decidable (memRect g p) := by
  unfold memRect; infer_instance

/-- Two rectangles share no point. -/
def disjointRects (g1 g2 : Geometry) : Prop :=
  ∀ p : Int × Int, ¬(memRect g1 p ∧ memRect g2 p)

/-- All container ratios of the tree lie strictly between 0 and 1. -/
def ratiosValid : LayoutNode → Bool
  | .window _ => true
  | .container _ ra lc rc =>
    decide ((0 : Rat) < ra) && decide (ra < (1 : Rat)) && ratiosValid lc && ratiosValid rc

/-- `u32::trailing_zeros` (32 for input 0). -/
def u32TrailingZeros (n : Nat) : Nat :=
  ((List.range 32).find? (fun i => n.testBit i)).getD 32

/-- Bit length of a u32 value: index of the top set bit plus 1, and 0
for input 0. -/
def u32BitLen (n : Nat) : Nat :=
  (List.range 32).foldl (fun acc i => if n.testBit i then i + 1 else acc) 0

/-- `u32::leading_zeros` (32 for input 0). -/
def u32LeadingZeros (n : Nat) : Nat := 32 - u32BitLen (n % 2 ^ 32)

/-- `OutputData` from src/wm/mod.rs (protocol proxy handle omitted). -/
structure OutputData where
  width : Int
  height : Int
  usable_area : Geometry
  full_area : Geometry
  tags : Nat
  base_tag : Nat
deriving DecidableEq, Repr

/-- The slice of `AppState` (src/wm/mod.rs) that the layout/focus engine
reads and writes. HashMaps are modelled as association lists observed
through `List.lookup`; Unix-stream IPC clients are opaque handles. -/
structure AppState where
  windows : List WindowData
  outputs : List (String × OutputData)
  tag_focus_history : List ((String × Nat) × Nat)
  last_geometry : List (Nat × Geometry)
  focused_window : Option Nat
  focused_tags : Nat
  ipc_clients : List Nat
  layout_roots : List ((String × Nat) × LayoutNode)
  focused_output : Option String
  last_sent_json : String
deriving DecidableEq, Repr

/-- `HashMap::insert`: bind `k` to `v`, replacing any previous binding. -/
def assocUpsert {α β : Type} [BEq α] (l : List (α × β)) (k : α) (v : β) :
    List (α × β) :=
  (k, v) :: l.filter (fun p => !(p.1 == k))

/-- `HashMap::remove` (the binding, observed through lookup). -/
def assocErase {α β : Type} [BEq α] (l : List (α × β)) (k : α) : List (α × β) :=
  l.filter (fun p => !(p.1 == k))

/-- `AppState::get_occupied_tags` from actions.rs: OR of `tags` over all
windows whose `app_id` is `Some` (no blacklist test appears here). -/
def get_occupied_tags (s : AppState) : Nat :=
  s.windows.foldl (fun mask w => if w.app_id.isSome then mask ||| w.tags else mask) 0

/-- `AppState::get_occupied_tags_for_monitor` from actions.rs. -/
def get_occupied_tags_for_monitor (s : AppState) (out_name : String) : Nat :=
  s.windows.foldl
    (fun mask w =>
      if w.output == some out_name && w.app_id.isSome then mask ||| w.tags else mask) 0

/-- Whether `pat` is a prefix of `l` (helper for the substring test). -/
def charListStartsWith : List Char → List Char → Bool
  | [], _ => true
  | _ :: _, [] => false
  | p :: ps, c :: cs => p == c && charListStartsWith ps cs

/-- Whether `pat` occurs inside `l` (helper for the substring test). -/
def charListContains : List Char → List Char → Bool
  | hay, [] =>
    match hay with
    | _ => true
  | [], _ :: _ => false
  | c :: rest, p :: ps =>
    charListStartsWith (p :: ps) (c :: rest) || charListContains rest (p :: ps)

/-- Substring test (Rust `str::contains`). -/
def containsSub (hay pat : String) : Bool := charListContains hay.data pat.data

/-- Follows the spec's wording for C7: a window app id matching the
`fcitx`/`virtual` substrings is blacklisted. -/
def specBlacklisted (a : Option String) : Bool :=
  match a with
  | some s => containsSub s "fcitx" || containsSub s "virtual"
  | none => false

/-- Follows the spec's wording for C7: OR of `tags` over exactly the
windows whose app_id is present and non-blacklisted. Compared against the
source `get_occupied_tags`. -/
def specOccupiedTags (s : AppState) : Nat :=
  s.windows.foldl
    (fun mask w =>
      if w.app_id.isSome && !specBlacklisted w.app_id then mask ||| w.tags else mask) 0

/-- `AppState::find_edge_in_tree` from actions.rs. -/
def find_edge_in_tree : LayoutNode → Direction → Nat
  | .window w, _ => w.id
  | .container st _ lc rc, dir =>
    match st, dir with
    | SplitType.vertical, Direction.left => find_edge_in_tree lc dir
    | SplitType.vertical, Direction.right => find_edge_in_tree rc dir
    | SplitType.horizontal, Direction.up => find_edge_in_tree lc dir
    | SplitType.horizontal, Direction.down => find_edge_in_tree rc dir
    | _, _ => find_edge_in_tree rc dir

/-- `max_occupied_idx` as computed inside `cycle_tag`:
`if occupied == 0 { 0 } else { 32 - occupied.leading_zeros() - 1 }`. -/
def maxOccupiedIdx (occupied : Nat) : Nat :=
  if occupied = 0 then 0 else 32 - u32LeadingZeros occupied - 1

/-- `bound_idx` as computed inside `cycle_tag`. -/
def cycleBoundIdx (occupied : Nat) : Nat := min (maxOccupiedIdx occupied + 1) 31

/-- `next_idx` as computed inside `cycle_tag`. -/
def cycleNextIdx (current_idx bound_idx : Nat) (delta : Int) : Nat :=
  if delta > 0 then
    if current_idx ≥ bound_idx then 0 else current_idx + 1
  else
    if current_idx = 0 then bound_idx else current_idx - 1

/-- `next_mask = 1 << next_idx` (u32) as computed inside `cycle_tag`. -/
def cycleNextMask (s : AppState) (d : OutputData) (delta : Int) : Nat :=
  2 ^ cycleNextIdx (u32TrailingZeros d.tags) (cycleBoundIdx (get_occupied_tags s)) delta
    % 2 ^ 32

/-- `AppState::cycle_tag` from actions.rs. Note it consults the global
`get_occupied_tags`, not the per-monitor variant. -/
def cycle_tag (s : AppState) (delta : Int) (dir : Direction) : AppState :=
  match s.focused_output with
  | none => s
  | some out_id =>
    match s.outputs.lookup out_id with
    | none => s
    | some d =>
      let current_tags := d.tags
      let next_mask := cycleNextMask s d delta
      if next_mask ≠ current_tags then
        let s1 : AppState :=
          { s with outputs := assocUpsert s.outputs out_id { d with tags := next_mask },
                   focused_tags := next_mask }
        let tree_key : String × Nat := (out_id, next_mask)
        match s1.layout_roots.lookup tree_key with
        | some root =>
          let look_dir := if dir = Direction.right then Direction.left else Direction.right
          let win_id := find_edge_in_tree root look_dir
          { s1 with focused_window := some win_id,
                    tag_focus_history := assocUpsert s1.tag_focus_history tree_key win_id }
        | none => { s1 with focused_window := none }
      else s

/-- The per-window body of the `WinEvent::Dimensions` handler in
src/wm/mod.rs, given the cached `last_geometry` entry for this window.
The returned Bool records whether `manage_dirty` was signaled. -/
def dimensionsUpdateWindow (w : WindowData) (geo? : Option Geometry)
    (width height : Int) : WindowData × Bool :=
  if w.is_fullscreen then (w, false)
  else if w.is_floating then
    ({ w with float_geo := { w.float_geo with w := width, h := height } }, false)
  else
    match geo? with
    | some geo =>
      let dw := (width - geo.w).natAbs
      let dh := (height - geo.h).natAbs
      if dw > 2 ∨ dh > 2 then
        if w.layout_retry_count < 50 then
          ({ w with layout_retry_count := w.layout_retry_count + 1 }, true)
        else if w.layout_retry_count = 50 then
          ({ w with layout_retry_count := w.layout_retry_count + 1 }, false)
        else (w, false)
      else
        ({ w with layout_retry_count := 0 }, false)
    | none => (w, false)

/-- The `WinEvent::Dimensions` handler from src/wm/mod.rs: locate the
window by id, update it, and possibly signal `manage_dirty` (the Bool). -/
def handleDimensionsEvent (s : AppState) (wid : Nat) (width height : Int) :
    AppState × Bool :=
  match s.windows.findIdx? (fun w => w.id == wid) with
  | none => (s, false)
  | some i =>
    match s.windows[i]? with
    | none => (s, false)
    | some w =>
      let res := dimensionsUpdateWindow w (s.last_geometry.lookup wid) width height
      ({ s with windows := s.windows.set i res.1 }, res.2)

/-- The collision test of the float-cascade walk in
`Action::ToggleFloat` (actions.rs): an existing float on the same
monitor/tag within 5 px on both axes. -/
def floatCollision (windows : List WindowData) (f_id : Nat) (out_name : String)
    (win_tags : Nat) (test_x test_y : Int) : Bool :=
  windows.any (fun other =>
    !(other.id == f_id) && other.is_floating && (other.output == some out_name)
      && !(other.tags &&& win_tags == 0)
      && decide ((other.float_geo.x - test_x).natAbs < 5)
      && decide ((other.float_geo.y - test_y).natAbs < 5))

/-- The cascade slot search of `Action::ToggleFloat`: the first slot in
`[0..10)` without collision, or 0 when every slot collides. -/
def cascadeSlot (windows : List WindowData) (f_id : Nat) (out_name : String)
    (win_tags : Nat) (base_x base_y : Int) : Nat :=
  (((List.range 10).find? (fun slot =>
      !(floatCollision windows f_id out_name win_tags
          (base_x + Int.ofNat slot * 25) (base_y + Int.ofNat slot * 25)))).getD 0)

/-- The initial float geometry computed by `Action::ToggleFloat` Case A:
60% x 60% of the usable area (`(screen.w as f32 * 0.6) as i32` modelled as
exact truncation of 3w/5), centered, cascaded by 25 px per occupied slot. -/
def computeFloatGeo (windows : List WindowData) (f_id : Nat) (out_name : String)
    (win_tags : Nat) (screen : Geometry) : Geometry :=
  let w := i32Div (3 * screen.w) 5
  let h := i32Div (3 * screen.h) 5
  let base_x := screen.x + i32Div (screen.w - w) 2
  let base_y := screen.y + i32Div (screen.h - h) 2
  let final_slot := cascadeSlot windows f_id out_name win_tags base_x base_y
  { x := base_x + (final_slot : Int) * 25, y := base_y + (final_slot : Int) * 25,
    w := w, h := h }

/-- `Action::ToggleFloat` from `AppState::perform_action` (actions.rs):
flip the focused window's float state; tile→float removes it from its
tree and computes the cascaded `float_geo`; float→tile re-inserts it at
the focus-history target, wrapping the root when `insert_at` fails. -/
def performToggleFloat (s : AppState) : AppState :=
  match s.focused_window with
  | none => s
  | some f_id =>
    match s.windows.findIdx? (fun w => w.id == f_id) with
    | none => s
    | some idx =>
      match s.windows[idx]? with
      | none => s
      | some wrec =>
        match wrec.output with
        | none => s
        | some out_name =>
          let is_now_floating := !wrec.is_floating
          let w1 := { wrec with is_floating := is_now_floating }
          let win_tags := wrec.tags
          let s0 := { s with windows := s.windows.set idx w1 }
          let tree_key : String × Nat := (out_name, win_tags)
          if is_now_floating then
            let s1 :=
              match s0.layout_roots.lookup tree_key with
              | some root =>
                let roots0 := assocErase s0.layout_roots tree_key
                match root.remove_at f_id with
                | some new_root =>
                  { s0 with layout_roots := assocUpsert roots0 tree_key new_root }
                | none => { s0 with layout_roots := roots0 }
              | none => s0
            match s1.outputs.lookup out_name with
            | some out_data =>
              let geo := computeFloatGeo s1.windows f_id out_name win_tags
                  out_data.usable_area
              { s1 with windows := s1.windows.set idx { w1 with float_geo := geo } }
            | none => s1
          else
            match s0.layout_roots.lookup tree_key with
            | none =>
              { s0 with layout_roots :=
                  assocUpsert s0.layout_roots tree_key (LayoutNode.window w1) }
            | some root =>
              let roots0 := assocErase s0.layout_roots tree_key
              let target_id := (s0.tag_focus_history.lookup tree_key).getD f_id
              let res := root.insert_at target_id w1 SplitType.vertical
              if res.2 then
                { s0 with layout_roots := assocUpsert roots0 tree_key res.1 }
              else
                { s0 with layout_roots :=
                    (assocUpsert roots0 tree_key
                      (LayoutNode.container SplitType.vertical (1/2) res.1
                        (LayoutNode.window w1))) }

/-- `AppState::broadcast_status` from actions.rs. The rendered JSON
(`get_waybar_response_json`) is passed in as `json_content`, and the
success of each client write as `writeOk`; the second component lists
every `(client, packet)` write performed. -/
def broadcast_status (s : AppState) (json_content : String) (writeOk : Nat → Bool) :
    AppState × List (Nat × String) :=
  if s.ipc_clients = [] then (s, [])
  else if json_content = s.last_sent_json then (s, [])
  else
    let packet := json_content ++ "\n"
    ({ s with last_sent_json := json_content,
              ipc_clients := s.ipc_clients.filter writeOk },
      s.ipc_clients.map (fun c => (c, packet)))

/-- A plain window record for concrete instances. -/
def mkWin (i : Nat) : WindowData :=
  { id := i, tags := 1, app_id := none, output := none, is_fullscreen := false,
    layout_retry_count := 0, last_proposed_w := 0, last_proposed_h := 0,
    is_floating := false, float_geo := { x := 0, y := 0, w := 0, h := 0 } }

/-- A window record with a chosen tag mask, used as a payload marker. -/
def mkWinT (i tg : Nat) : WindowData := { mkWin i with tags := tg }

/-- An `AppState` with everything empty. -/
def emptyState : AppState :=
  { windows := [], outputs := [], tag_focus_history := [], last_geometry := [],
    focused_window := none, focused_tags := 1, ipc_clients := [],
    layout_roots := [], focused_output := none, last_sent_json := "" }

/-- A zero rectangle. -/
def g0 : Geometry := { x := 0, y := 0, w := 0, h := 0 }

/-- An output showing tag index 0 with a given usable area. -/
def mkOut (g : Geometry) : OutputData :=
  { width := g.w, height := g.h, usable_area := g, full_area := g,
    tags := 1, base_tag := 1 }

/-- The window on monitor B that occupies tag index 5. -/
def winC3 : WindowData :=
  { mkWin 7 with tags := 2 ^ 5, app_id := some "term", output := some "B" }

/-- C3 counterexample state: monitor A focused on tag index 0 and empty,
while a window on monitor B occupies tag index 5. -/
def exC3 : AppState :=
  { emptyState with
    windows := [winC3],
    outputs := [("A", mkOut g0)],
    focused_output := some "A" }

/-- A window whose app id matches the `fcitx` blacklist substring. -/
def winC7 : WindowData :=
  { mkWin 9 with tags := 4, app_id := some "fcitx-im", output := some "A" }

/-- C7 counterexample state: a single window whose app id matches the
`fcitx` blacklist substring, parked on tag index 2. -/
def exC7 : AppState :=
  { emptyState with
    windows := [winC7] }

/-- C5 witness data: cached geometry 100x100 for window 1. -/
def geoC5 : Geometry := { x := 0, y := 0, w := 100, h := 100 }

/-- C5 witness state: window 1 tiled with cached geometry `geoC5`. -/
def stC5 : AppState :=
  { emptyState with windows := [mkWin 1], last_geometry := [(1, geoC5)] }

/-- C9 witness state: one connected client, last sent JSON "x". -/
def stC9 : AppState := { emptyState with ipc_clients := [1], last_sent_json := "x" }

/-- C6 scenario: three tiled windows on an empty 1000x1000 monitor. -/
def exC6 : AppState :=
  { emptyState with
    windows := [{ mkWin 1 with app_id := some "a", output := some "M" },
                { mkWin 2 with app_id := some "b", output := some "M" },
                { mkWin 3 with app_id := some "c", output := some "M" }],
    outputs := [("M", mkOut { x := 0, y := 0, w := 1000, h := 1000 })],
    focused_output := some "M",
    focused_window := some 1 }

/-- C6 scenario after toggling window 1 to float. -/
def exC6a : AppState := performToggleFloat exC6

/-- C6 scenario after also toggling window 2 to float. -/
def exC6b : AppState := performToggleFloat { exC6a with focused_window := some 2 }

/-- C6 scenario after also toggling window 3 to float. -/
def exC6c : AppState := performToggleFloat { exC6b with focused_window := some 3 }

/-- C4 witness tree: two leaves with ids 4 and 5 on tag index 1. -/
def treeC4 : LayoutNode :=
  LayoutNode.container SplitType.vertical 1
    (LayoutNode.window (mkWinT 4 2)) (LayoutNode.window (mkWinT 5 2))

/-- C4 witness state: monitor A shows tag index 0; tag index 1 is
occupied and carries `treeC4`. -/
def stC4 : AppState :=
  { emptyState with
    windows := [({ mkWinT 4 2 with app_id := some "a", output := some "A" })],
    outputs := [("A", mkOut g0)],
    layout_roots := [(("A", 2), treeC4)],
    focused_output := some "A" }

/-- The rational 1/2 as a ready-reduced literal. -/
def halfRat : Rat := ⟨1, 2, by decide, Nat.coprime_one_left 2⟩

/-- C10 witness tree: a vertical split whose right child splits
horizontally, all ratios 1/2. -/
def treeC10 : LayoutNode :=
  LayoutNode.container SplitType.vertical halfRat (LayoutNode.window (mkWin 0))
    (LayoutNode.container SplitType.horizontal halfRat
      (LayoutNode.window (mkWin 1)) (LayoutNode.window (mkWin 2)))

/-- C10 witness area. -/
def aC10 : Geometry := { x := 0, y := 0, w := 100, h := 80 }

/-- A two-leaf tree with window ids 0 and 1. -/
def tree01 : LayoutNode :=
  LayoutNode.container SplitType.vertical (1/2)
    (LayoutNode.window (mkWin 0)) (LayoutNode.window (mkWin 1))

/-- A tree with two distinct leaves sharing window id 0 (payloads differ
in `tags`), plus a leaf with id 1. -/
def dupTree : LayoutNode :=
  LayoutNode.container SplitType.vertical (1/2) (LayoutNode.window (mkWinT 0 10))
    (LayoutNode.container SplitType.vertical (1/2) (LayoutNode.window (mkWinT 0 11))
      (LayoutNode.window (mkWinT 1 12)))

theorem occursId_window (u : WindowData) (t : Nat) :
    (LayoutNode.window u).occursId t = (u.id == t) := rfl

theorem occursId_container (st : SplitType) (ra : Rat) (lc rc : LayoutNode) (t : Nat) :
    (LayoutNode.container st ra lc rc).occursId t = (lc.occursId t || rc.occursId t) := rfl

/-- The bool returned by `insert_at` says exactly whether the target id
occurs at some leaf. -/
theorem insert_at_snd (n : LayoutNode) (t : Nat) (w : WindowData) (s : SplitType) :
    (n.insert_at t w s).2 = n.occursId t := by
  induction n with
  | window u =>
    by_cases h : u.id = t <;>
      simp [LayoutNode.insert_at, LayoutNode.occursId, h]
  | container st ra lc rc ihl ihr =>
    cases hb : (lc.insert_at t w s).2 with
    | false =>
      have hocc : lc.occursId t = false := by rw [← ihl]; exact hb
      simp [LayoutNode.insert_at, LayoutNode.occursId, hb, hocc, ihr]
    | true =>
      have hocc : lc.occursId t = true := by rw [← ihl]; exact hb
      simp [LayoutNode.insert_at, LayoutNode.occursId, hb, hocc]

/-- When the target id is absent, `insert_at` leaves the tree unchanged. -/
theorem insert_at_not_found (n : LayoutNode) (t : Nat) (w : WindowData) (s : SplitType)
    (h : n.occursId t = false) : (n.insert_at t w s).1 = n := by
  induction n with
  | window u =>
    have : ¬(u.id = t) := by
      intro he
      simp [LayoutNode.occursId, he] at h
    simp [LayoutNode.insert_at, this]
  | container st ra lc rc ihl ihr =>
    simp only [LayoutNode.occursId, Bool.or_eq_false_iff] at h
    have hb : (lc.insert_at t w s).2 = false := by rw [insert_at_snd]; exact h.1
    simp [LayoutNode.insert_at, hb, ihl h.1, ihr h.2]

/-- When the target id is absent, `remove_at` returns the tree unchanged. -/
theorem remove_at_not_found (n : LayoutNode) (t : Nat)
    (h : n.occursId t = false) : n.remove_at t = some n := by
  induction n with
  | window u =>
    have : ¬(u.id = t) := by
      intro he
      simp [LayoutNode.occursId, he] at h
    simp [LayoutNode.remove_at, this]
  | container st ra lc rc ihl ihr =>
    simp only [LayoutNode.occursId, Bool.or_eq_false_iff] at h
    simp [LayoutNode.remove_at, ihl h.1, ihr h.2]

/-- C1: for every tree, every id `t` of a leaf of the tree, and every new
window `w` whose id does not occur in the tree, removing `w` right after
inserting it at `t` restores the original tree:
`remove_at(insert_at(tree, t, w), w) = tree`. -/
theorem claim_C1_remove_insert_roundtrip (tree : LayoutNode) (t : Nat) (w : WindowData)
    (s : SplitType) (ht : tree.occursId t = true) (hw : tree.occursId w.id = false) :
    ((tree.insert_at t w s).1).remove_at w.id = some tree := by
  induction tree with
  | window u =>
    have hut : u.id = t := by simpa [LayoutNode.occursId] using ht
    have huw : ¬(u.id = w.id) := by simpa [LayoutNode.occursId] using hw
    subst hut
    simp [LayoutNode.insert_at, LayoutNode.remove_at, huw]
  | container st ra lc rc ihl ihr =>
    simp only [LayoutNode.occursId, Bool.or_eq_true] at ht
    simp only [LayoutNode.occursId, Bool.or_eq_false_iff] at hw
    cases hocl : lc.occursId t with
    | true =>
      have hb : (lc.insert_at t w s).2 = true := by rw [insert_at_snd]; exact hocl
      simp [LayoutNode.insert_at, hb, LayoutNode.remove_at, ihl hocl hw.1,
        remove_at_not_found rc w.id hw.2]
    | false =>
      have hocr : rc.occursId t = true := by
        rcases ht with h | h
        · rw [hocl] at h; exact absurd h (by simp)
        · exact h
      have hb : (lc.insert_at t w s).2 = false := by rw [insert_at_snd]; exact hocl
      simp [LayoutNode.insert_at, hb, LayoutNode.remove_at, ihr hocr hw.2,
        remove_at_not_found lc w.id hw.1]

/-- Witness for C1 at a concrete two-leaf tree and a fresh window id 5. -/
theorem claim_C1_witness :
    tree01.occursId 0 = true ∧ tree01.occursId (mkWin 5).id = false ∧
    ((tree01.insert_at 0 (mkWin 5) SplitType.horizontal).1).remove_at (mkWin 5).id =
      some tree01 :=
  ⟨by decide, by decide,
    claim_C1_remove_insert_roundtrip tree01 0 (mkWin 5) SplitType.horizontal
      (by decide) (by decide)⟩

/-- C8: `insert_at` returns true iff some leaf carries the target id; on
success the first such leaf (left-to-right) is replaced by a container
with the given split, ratio 1/2, the original leaf on the left and the
new window on the right, and nothing else changes; on failure the tree is
unchanged. -/
theorem claim_C8_insert_at_spec (tree : LayoutNode) (t : Nat) (w : WindowData)
    (s : SplitType) :
    ((tree.insert_at t w s).2 = true ↔ tree.occursId t = true) ∧
    (tree.occursId t = true →
      (tree.insert_at t w s).1 =
        replaceFirstLeaf tree t (fun old =>
          LayoutNode.container s (1/2) (LayoutNode.window old) (LayoutNode.window w))) ∧
    (tree.occursId t = false → (tree.insert_at t w s).1 = tree) := by
  refine ⟨by rw [insert_at_snd], ?_, fun h => insert_at_not_found tree t w s h⟩
  intro hocc
  induction tree with
  | window u =>
    have hut : u.id = t := by simpa [LayoutNode.occursId] using hocc
    simp [LayoutNode.insert_at, LayoutNode.replaceFirstLeaf, hut]
  | container st ra lc rc ihl ihr =>
    simp only [LayoutNode.occursId, Bool.or_eq_true] at hocc
    cases hocl : lc.occursId t with
    | true =>
      have hb : (lc.insert_at t w s).2 = true := by rw [insert_at_snd]; exact hocl
      simp [LayoutNode.insert_at, hb, LayoutNode.replaceFirstLeaf, hocl, ihl hocl]
    | false =>
      have hocr : rc.occursId t = true := by
        rcases hocc with h | h
        · rw [hocl] at h; exact absurd h (by simp)
        · exact h
      have hb : (lc.insert_at t w s).2 = false := by rw [insert_at_snd]; exact hocl
      simp [LayoutNode.insert_at, hb, LayoutNode.replaceFirstLeaf, hocl, ihr hocr]

/-- Witness for C8 at a concrete tree: insertion at the present id 1. -/
theorem claim_C8_witness :
    ((tree01.insert_at 1 (mkWin 5) SplitType.horizontal).2 = true ↔
      tree01.occursId 1 = true) ∧
    tree01.occursId 1 = true ∧
    (tree01.insert_at 1 (mkWin 5) SplitType.horizontal).1 =
      replaceFirstLeaf tree01 1 (fun old =>
        LayoutNode.container SplitType.horizontal (1/2) (LayoutNode.window old)
          (LayoutNode.window (mkWin 5))) :=
  ⟨(claim_C8_insert_at_spec tree01 1 (mkWin 5) SplitType.horizontal).1, by decide,
    (claim_C8_insert_at_spec tree01 1 (mkWin 5) SplitType.horizontal).2.1 (by decide)⟩

/-- A successful `find_data` returns a leaf of the tree carrying the
searched id. -/
theorem find_data_some_mem (n : LayoutNode) (a : Nat) (d : WindowData)
    (hf : n.find_data a = some d) : d ∈ n.leaves ∧ d.id = a := by
  induction n with
  | window u =>
    by_cases h : u.id = a
    · simp [LayoutNode.find_data, h] at hf
      subst hf
      exact ⟨by simp [LayoutNode.leaves], h⟩
    · simp [LayoutNode.find_data, h] at hf
  | container st ra lc rc ihl ihr =>
    cases hlf : lc.find_data a with
    | some dl =>
      simp only [LayoutNode.find_data, hlf] at hf
      obtain rfl : dl = d := by injection hf
      obtain ⟨hm, hid⟩ := ihl hlf
      exact ⟨by simp [LayoutNode.leaves, hm], hid⟩
    | none =>
      simp only [LayoutNode.find_data, hlf] at hf
      obtain ⟨hm, hid⟩ := ihr hf
      exact ⟨by simp [LayoutNode.leaves, hm], hid⟩

/-- A failed `find_data` means no leaf carries the searched id. -/
theorem find_data_none (n : LayoutNode) (a : Nat)
    (hf : n.find_data a = none) : ∀ w ∈ n.leaves, w.id ≠ a := by
  induction n with
  | window u =>
    intro w hw
    simp [LayoutNode.leaves] at hw
    subst hw
    by_cases h : w.id = a
    · simp [LayoutNode.find_data, h] at hf
    · exact h
  | container st ra lc rc ihl ihr =>
    intro w hw
    cases hlf : lc.find_data a with
    | some dl => simp [LayoutNode.find_data, hlf] at hf
    | none =>
      simp only [LayoutNode.find_data, hlf] at hf
      simp only [LayoutNode.leaves, List.mem_append] at hw
      rcases hw with hw | hw
      · exact ihl hlf w hw
      · exact ihr hf w hw

/-- With pairwise-distinct leaf ids, the data found for an id is the data
of every leaf carrying that id. -/
theorem find_data_unique (n : LayoutNode) (a : Nat) (d : WindowData)
    (hnd : (n.leaves.map WindowData.id).Nodup)
    (hf : n.find_data a = some d) :
    ∀ w ∈ n.leaves, w.id = a → w = d := by
  revert hnd hf
  induction n with
  | window u =>
    intro hnd hf w hw hwid
    simp [LayoutNode.leaves] at hw
    subst hw
    simp [LayoutNode.find_data, hwid] at hf
    exact hf
  | container st ra lc rc ihl ihr =>
    intro hnd hf w hw hwid
    rw [LayoutNode.leaves, List.map_append] at hnd
    obtain ⟨hnd1, hnd2, hdisj⟩ := List.nodup_append.mp hnd
    simp only [LayoutNode.leaves, List.mem_append] at hw
    cases hlf : lc.find_data a with
    | some dl =>
      simp only [LayoutNode.find_data, hlf] at hf
      have hdd : dl = d := Option.some.inj hf
      rw [hdd] at hlf
      rcases hw with hw | hw
      · exact ihl hnd1 hlf w hw hwid
      · exfalso
        obtain ⟨hm, hid⟩ := find_data_some_mem lc a d hlf
        have h1m : a ∈ List.map WindowData.id lc.leaves := by
          rw [← hid]; exact List.mem_map_of_mem WindowData.id hm
        have h2m : a ∈ List.map WindowData.id rc.leaves := by
          rw [← hwid]; exact List.mem_map_of_mem WindowData.id hw
        exact hdisj h1m h2m
    | none =>
      simp only [LayoutNode.find_data, hlf] at hf
      rcases hw with hw | hw
      · exact absurd hwid (find_data_none lc a hlf w hw)
      · exact ihr hnd2 hf w hw hwid

/-- Swapping the same id with itself is the identity when every leaf with
that id holds the found data. -/
theorem perform_swap_self (n : LayoutNode) (a : Nat) (d : WindowData)
    (c : ∀ w ∈ n.leaves, w.id = a → w = d) :
    n.perform_swap a d a d = n := by
  revert c
  induction n with
  | window u =>
    intro c
    by_cases h : u.id = a
    · have := c u (by simp [LayoutNode.leaves]) h
      simp [LayoutNode.perform_swap, h, this]
    · simp [LayoutNode.perform_swap, h]
  | container st ra lc rc ihl ihr =>
    intro c
    simp only [LayoutNode.leaves, List.mem_append] at c
    simp only [LayoutNode.perform_swap]
    rw [ihl (fun w hw => c w (Or.inl hw)), ihr (fun w hw => c w (Or.inr hw))]

/-- Applying the same payload swap twice restores the tree, provided the
two payloads are the unique carriers of their ids. -/
theorem perform_swap_involution (n : LayoutNode) (a b : Nat) (d1 d2 : WindowData)
    (ha : d1.id = a) (hb : d2.id = b) (hab : a ≠ b)
    (c1 : ∀ w ∈ n.leaves, w.id = a → w = d1)
    (c2 : ∀ w ∈ n.leaves, w.id = b → w = d2) :
    (n.perform_swap a d1 b d2).perform_swap a d1 b d2 = n := by
  revert c1 c2
  induction n with
  | window u =>
    intro c1 c2
    have hu : u ∈ (LayoutNode.window u).leaves := by simp [LayoutNode.leaves]
    have hd2a : ¬(d2.id = a) := by rw [hb]; exact fun he => hab he.symm
    have hd1b : ¬(d1.id = b) := by rw [ha]; exact hab
    have hba : ¬(b = a) := fun he => hab he.symm
    by_cases h1 : u.id = a
    · have hud : u = d1 := c1 u hu h1
      simp [LayoutNode.perform_swap, h1, hd2a, hb, ha, hud, hba, hab]
    · by_cases h2 : u.id = b
      · have hud : u = d2 := c2 u hu h2
        simp [LayoutNode.perform_swap, h1, h2, ha, hb, hd2a, hd1b, hud, hba, hab]
      · simp [LayoutNode.perform_swap, h1, h2]
  | container st ra lc rc ihl ihr =>
    intro c1 c2
    simp only [LayoutNode.leaves, List.mem_append] at c1 c2
    simp only [LayoutNode.perform_swap]
    rw [ihl (fun w hw => c1 w (Or.inl hw)) (fun w hw => c2 w (Or.inl hw)),
      ihr (fun w hw => c1 w (Or.inr hw)) (fun w hw => c2 w (Or.inr hw))]

/-- After one payload swap, searching either id finds the other payload:
`a` now resolves to `d1` exactly where `b` used to resolve, and dually. -/
theorem find_data_perform_swap (n : LayoutNode) (a b : Nat) (d1 d2 : WindowData)
    (ha : d1.id = a) (hb : d2.id = b) (hab : a ≠ b)
    (c1 : ∀ w ∈ n.leaves, w.id = a → w = d1)
    (c2 : ∀ w ∈ n.leaves, w.id = b → w = d2) :
    (n.perform_swap a d1 b d2).find_data a = (n.find_data b).map (fun _ => d1) ∧
    (n.perform_swap a d1 b d2).find_data b = (n.find_data a).map (fun _ => d2) := by
  revert c1 c2
  induction n with
  | window u =>
    intro c1 c2
    have hu : u ∈ (LayoutNode.window u).leaves := by simp [LayoutNode.leaves]
    have hd2a : ¬(d2.id = a) := by rw [hb]; exact fun he => hab he.symm
    have hd1b : ¬(d1.id = b) := by rw [ha]; exact hab
    have hba : ¬(b = a) := fun he => hab he.symm
    by_cases h1 : u.id = a
    · have hub : ¬(u.id = b) := by rw [h1]; exact hab
      have hud : u = d1 := c1 u hu h1
      constructor <;>
        simp [LayoutNode.perform_swap, LayoutNode.find_data, h1, hub, hd2a, hd1b,
          ha, hb, hud, hba, hab]
    · by_cases h2 : u.id = b
      · have hud : u = d2 := c2 u hu h2
        constructor <;>
          simp [LayoutNode.perform_swap, LayoutNode.find_data, h1, h2, ha, hb,
            hd1b, hd2a, hud, hba, hab]
      · constructor <;>
          simp [LayoutNode.perform_swap, LayoutNode.find_data, h1, h2]
  | container st ra lc rc ihl ihr =>
    intro c1 c2
    simp only [LayoutNode.leaves, List.mem_append] at c1 c2
    obtain ⟨ihl1, ihl2⟩ :=
      ihl (fun w hw => c1 w (Or.inl hw)) (fun w hw => c2 w (Or.inl hw))
    obtain ⟨ihr1, ihr2⟩ :=
      ihr (fun w hw => c1 w (Or.inr hw)) (fun w hw => c2 w (Or.inr hw))
    constructor
    · cases hlb : lc.find_data b <;>
        simp_all [LayoutNode.perform_swap, LayoutNode.find_data]
    · cases hla : lc.find_data a <;>
        simp_all [LayoutNode.perform_swap, LayoutNode.find_data]

/-- The leaf list of a payload swap is the pointwise `swapFn` image. -/
theorem leaves_perform_swap (n : LayoutNode) (a b : Nat) (d1 d2 : WindowData) :
    (n.perform_swap a d1 b d2).leaves = n.leaves.map (swapFn a d1 b d2) := by
  induction n with
  | window u =>
    by_cases h1 : u.id = a
    · simp [LayoutNode.perform_swap, LayoutNode.leaves, LayoutNode.swapFn, h1]
    · by_cases h2 : u.id = b
      · have hba : ¬(b = a) := fun he => h1 (he ▸ h2)
        simp [LayoutNode.perform_swap, LayoutNode.leaves, LayoutNode.swapFn, h1, h2, hba]
      · simp [LayoutNode.perform_swap, LayoutNode.leaves, LayoutNode.swapFn, h1, h2]
  | container st ra lc rc ihl ihr =>
    simp [LayoutNode.perform_swap, LayoutNode.leaves, ihl, ihr]

/-- A payload swap never changes the container skeleton. -/
theorem shape_perform_swap (n : LayoutNode) (a b : Nat) (d1 d2 : WindowData) :
    (n.perform_swap a d1 b d2).shape = n.shape := by
  induction n with
  | window u =>
    by_cases h1 : u.id = a
    · simp [LayoutNode.perform_swap, LayoutNode.shape, h1]
    · by_cases h2 : u.id = b
      · have hba : ¬(b = a) := fun he => h1 (he ▸ h2)
        simp [LayoutNode.perform_swap, LayoutNode.shape, h1, h2, hba]
      · simp [LayoutNode.perform_swap, LayoutNode.shape, h1, h2]
  | container st ra lc rc ihl ihr =>
    simp [LayoutNode.perform_swap, LayoutNode.shape, ihl, ihr]

/-- C2 (amended): on a tree whose leaf window ids are pairwise distinct,
`swap_windows` is an involution; moreover a single call preserves the
container skeleton (splits and ratios), leaves the tree unchanged when
either id is absent, and otherwise exchanges exactly the payloads of the
matching leaves. -/
theorem claim_C2_swap_involution (n : LayoutNode) (a b : Nat)
    (hnodup : (n.leaves.map WindowData.id).Nodup) :
    swap_windows (swap_windows n a b) a b = n ∧
    (swap_windows n a b).shape = n.shape ∧
    (n.find_data a = none ∨ n.find_data b = none → swap_windows n a b = n) ∧
    (∀ d1 d2, n.find_data a = some d1 → n.find_data b = some d2 →
      (swap_windows n a b).leaves = n.leaves.map (swapFn a d1 b d2)) := by
  refine ⟨?_, ?_, ?_, ?_⟩
  · cases hfa : n.find_data a with
    | none =>
      have h1 : swap_windows n a b = n := by
        cases hfb : n.find_data b <;> simp [LayoutNode.swap_windows, hfa, hfb]
      rw [h1]; exact h1
    | some d1 =>
      cases hfb : n.find_data b with
      | none =>
        have h1 : swap_windows n a b = n := by
          simp [LayoutNode.swap_windows, hfa, hfb]
        rw [h1]; exact h1
      | some d2 =>
        have hsw : swap_windows n a b = n.perform_swap a d1 b d2 := by
          simp [LayoutNode.swap_windows, hfa, hfb]
        obtain ⟨hm1, hid1⟩ := find_data_some_mem n a d1 hfa
        obtain ⟨hm2, hid2⟩ := find_data_some_mem n b d2 hfb
        have c1 := find_data_unique n a d1 hnodup hfa
        have c2 := find_data_unique n b d2 hnodup hfb
        by_cases hab : a = b
        · subst hab
          have hd12 : d1 = d2 := by rw [hfa] at hfb; exact Option.some.inj hfb
          subst hd12
          have hps := perform_swap_self n a d1 c1
          rw [hsw, hps, hsw, hps]
        · obtain ⟨hf1, hf2⟩ :=
            find_data_perform_swap n a b d1 d2 hid1 hid2 hab c1 c2
          rw [hsw]
          have hfa2 : (n.perform_swap a d1 b d2).find_data a = some d1 := by
            rw [hf1, hfb]; rfl
          have hfb2 : (n.perform_swap a d1 b d2).find_data b = some d2 := by
            rw [hf2, hfa]; rfl
          simp only [LayoutNode.swap_windows, hfa2, hfb2]
          exact perform_swap_involution n a b d1 d2 hid1 hid2 hab c1 c2
  · cases hfa : n.find_data a <;> cases hfb : n.find_data b <;>
      simp [LayoutNode.swap_windows, hfa, hfb, shape_perform_swap]
  · intro h
    rcases h with h | h
    · cases hfb : n.find_data b <;> simp [LayoutNode.swap_windows, h, hfb]
    · cases hfa : n.find_data a <;> simp [LayoutNode.swap_windows, h, hfa]
  · intro d1 d2 hfa hfb
    have hsw : swap_windows n a b = n.perform_swap a d1 b d2 := by
      simp [LayoutNode.swap_windows, hfa, hfb]
    rw [hsw]
    exact leaves_perform_swap n a b d1 d2

/-- C2 counterexample: on a tree with two distinct leaves sharing window
id 0 (legal for the Rust type), applying `swap_windows` twice with ids
(0, 1) does not restore the tree, so the claim's unrestricted
quantification over trees fails. -/
theorem claim_C2_counterexample :
    swap_windows (swap_windows dupTree 0 1) 0 1 ≠ dupTree := by
  intro h
  have hl : (swap_windows (swap_windows dupTree 0 1) 0 1).leaves = dupTree.leaves :=
    congrArg LayoutNode.leaves h
  exact absurd hl (by decide)

/-- Witness for the amended C2 at a concrete two-leaf tree. -/
theorem claim_C2_witness :
    (tree01.leaves.map WindowData.id).Nodup ∧
    swap_windows (swap_windows tree01 0 1) 0 1 = tree01 :=
  ⟨by decide, (claim_C2_swap_involution tree01 0 1 (by decide)).1⟩

/-- Bit `i` of the occupied-tags fold: set iff already set in the
accumulator or contributed by some window with a present app id. -/
theorem occupied_foldl_testBit (l : List WindowData) (acc : Nat) (i : Nat) :
    (l.foldl (fun mask w => if w.app_id.isSome then mask ||| w.tags else mask)
        acc).testBit i =
      (acc.testBit i || l.any (fun w => w.app_id.isSome && w.tags.testBit i)) := by
  induction l generalizing acc with
  | nil => simp
  | cons w tl ih =>
    simp only [List.foldl_cons, List.any_cons]
    by_cases h : w.app_id.isSome
    · rw [if_pos h, ih]
      simp [h, Nat.testBit_or, Bool.or_assoc]
    · rw [if_neg h, ih]
      simp [h]

/-- C7 (amended): `get_occupied_tags` ORs `tags` over every window whose
`app_id` is present, with no blacklist filtering: bit `i` of the result
is set iff some window with a present app id carries bit `i`. -/
theorem claim_C7_occupied_tags (s : AppState) (i : Nat) :
    (get_occupied_tags s).testBit i =
      s.windows.any (fun w => w.app_id.isSome && w.tags.testBit i) := by
  unfold get_occupied_tags
  rw [occupied_foldl_testBit]
  simp

/-- C7 counterexample: a window whose app id contains `fcitx` still
contributes its tag mask to `get_occupied_tags`, contradicting the
claim's blacklist exclusion (rendered by `specOccupiedTags`). -/
theorem claim_C7_counterexample :
    get_occupied_tags exC7 ≠ specOccupiedTags exC7 ∧
    get_occupied_tags exC7 = 4 ∧ specOccupiedTags exC7 = 0 := by
  refine ⟨?_, by decide, by decide⟩
  decide

/-- C9: when the rendered JSON equals the last-sent JSON,
`broadcast_status` writes no bytes to any client and changes nothing. -/
theorem claim_C9_broadcast_dedupe (s : AppState) (json : String) (ok : Nat → Bool)
    (h : json = s.last_sent_json) :
    (broadcast_status s json ok).2 = [] ∧ (broadcast_status s json ok).1 = s := by
  unfold broadcast_status
  by_cases hc : s.ipc_clients = [] <;> simp [hc, h]

/-- Witness for C9 with one connected client and an unchanged JSON. -/
theorem claim_C9_witness :
    ("x" : String) = stC9.last_sent_json ∧
    (broadcast_status stC9 "x" (fun _ => true)).2 = [] ∧
    (broadcast_status stC9 "x" (fun _ => true)).1 = stC9 :=
  ⟨rfl, (claim_C9_broadcast_dedupe stC9 "x" (fun _ => true) rfl).1,
    (claim_C9_broadcast_dedupe stC9 "x" (fun _ => true) rfl).2⟩

/-- C5: on a dimensions event for a non-fullscreen, non-floating window
with a cached geometry, a mismatch beyond 2 px with fewer than 50 retries
increments the counter and signals `manage_dirty`; from 50 on, mismatches
signal nothing (the window is surrendered); a within-tolerance report
resets the counter. -/
theorem claim_C5_dimensions_retry (s : AppState) (wid : Nat) (width height : Int)
    (i : Nat) (w : WindowData) (geo : Geometry)
    (hfind : s.windows.findIdx? (fun x => x.id == wid) = some i)
    (hget : s.windows[i]? = some w)
    (hfs : w.is_fullscreen = false) (hfl : w.is_floating = false)
    (hgeo : s.last_geometry.lookup wid = some geo) :
    (max (width - geo.w).natAbs (height - geo.h).natAbs > 2 →
      w.layout_retry_count < 50 →
      ((handleDimensionsEvent s wid width height).1.windows[i]? =
          some { w with layout_retry_count := w.layout_retry_count + 1 } ∧
        (handleDimensionsEvent s wid width height).2 = true)) ∧
    (max (width - geo.w).natAbs (height - geo.h).natAbs > 2 →
      50 ≤ w.layout_retry_count →
      (handleDimensionsEvent s wid width height).2 = false) ∧
    (max (width - geo.w).natAbs (height - geo.h).natAbs ≤ 2 →
      ((handleDimensionsEvent s wid width height).1.windows[i]? =
          some { w with layout_retry_count := 0 } ∧
        (handleDimensionsEvent s wid width height).2 = false)) := by
  have hlen : i < s.windows.length := by
    rcases List.getElem?_eq_some.mp hget with ⟨h, _⟩
    exact h
  have hev : handleDimensionsEvent s wid width height =
      ({ s with windows :=
          (s.windows.set i
            (dimensionsUpdateWindow w (s.last_geometry.lookup wid) width height).1) },
        (dimensionsUpdateWindow w (s.last_geometry.lookup wid) width height).2) := by
    simp [handleDimensionsEvent, hfind, hget]
  refine ⟨?_, ?_, ?_⟩
  · intro hmax hretry
    have hor : (width - geo.w).natAbs > 2 ∨ (height - geo.h).natAbs > 2 :=
      lt_max_iff.mp hmax
    have hupd : dimensionsUpdateWindow w (s.last_geometry.lookup wid) width height =
        ({ w with layout_retry_count := w.layout_retry_count + 1 }, true) := by
      unfold dimensionsUpdateWindow
      rw [hgeo]
      simp [hfs, hfl, hor, hretry]
    rw [hev, hupd]
    exact ⟨List.getElem?_set_eq_of_lt _ hlen, rfl⟩
  · intro hmax hretry
    have hor : (width - geo.w).natAbs > 2 ∨ (height - geo.h).natAbs > 2 :=
      lt_max_iff.mp hmax
    have hnlt : ¬(w.layout_retry_count < 50) := by omega
    rw [hev]
    by_cases h50 : w.layout_retry_count = 50
    · have hupd : dimensionsUpdateWindow w (s.last_geometry.lookup wid) width height =
          ({ w with layout_retry_count := w.layout_retry_count + 1 }, false) := by
        unfold dimensionsUpdateWindow
        rw [hgeo]
        simp [hfs, hfl, hor, hnlt, h50]
      rw [hupd]
    · have hupd : dimensionsUpdateWindow w (s.last_geometry.lookup wid) width height =
          (w, false) := by
        unfold dimensionsUpdateWindow
        rw [hgeo]
        simp [hfs, hfl, hor, hnlt, h50]
      rw [hupd]
  · intro hmax
    have hand : ¬((width - geo.w).natAbs > 2 ∨ (height - geo.h).natAbs > 2) := by
      rcases max_le_iff.mp hmax with ⟨h1, h2⟩
      omega
    have hupd : dimensionsUpdateWindow w (s.last_geometry.lookup wid) width height =
        ({ w with layout_retry_count := 0 }, false) := by
      unfold dimensionsUpdateWindow
      rw [hgeo]
      simp [hfs, hfl, hand]
    rw [hev, hupd]
    exact ⟨List.getElem?_set_eq_of_lt _ hlen, rfl⟩

/-- Witness for C5: a 10-px width mismatch at retry count 0 increments
the counter and signals dirty. -/
theorem claim_C5_witness :
    stC5.windows.findIdx? (fun x => x.id == 1) = some 0 ∧
    stC5.windows[0]? = some (mkWin 1) ∧
    stC5.last_geometry.lookup 1 = some geoC5 ∧
    max ((90 : Int) - geoC5.w).natAbs ((100 : Int) - geoC5.h).natAbs > 2 ∧
    (handleDimensionsEvent stC5 1 90 100).1.windows[0]? =
      some { mkWin 1 with layout_retry_count := 1 } ∧
    (handleDimensionsEvent stC5 1 90 100).2 = true := by
  refine ⟨by decide, by decide, by decide, by decide, ?_, ?_⟩
  · exact ((claim_C5_dimensions_retry stC5 1 90 100 0 (mkWin 1) geoC5
      (by decide) (by decide) (by decide) (by decide) (by decide)).1
        (by decide) (by decide)).1
  · exact ((claim_C5_dimensions_retry stC5 1 90 100 0 (mkWin 1) geoC5
      (by decide) (by decide) (by decide) (by decide) (by decide)).1
        (by decide) (by decide)).2

/-- Looking up the freshly upserted key returns the new value. -/
theorem assocUpsert_lookup_self {α β : Type} [BEq α] [LawfulBEq α]
    (l : List (α × β)) (k : α) (v : β) :
    (assocUpsert l k v).lookup k = some v := by
  simp [assocUpsert, List.lookup]

/-- `trailing_zeros` of a one-hot u32 mask is its bit index. -/
theorem u32TrailingZeros_pow : ∀ i, i < 32 → u32TrailingZeros (2 ^ i) = i := by
  decide

/-- The tags of the focused monitor after `cycle_tag` equal the computed
next mask (also when the cycle is a no-op because the mask is unchanged). -/
theorem cycle_tag_outputs_tags (s : AppState) (o : String) (d : OutputData)
    (delta : Int) (dir : Direction)
    (h1 : s.focused_output = some o) (h2 : s.outputs.lookup o = some d) :
    ((cycle_tag s delta dir).outputs.lookup o).map OutputData.tags =
      some (cycleNextMask s d delta) := by
  unfold cycle_tag
  rw [h1]
  simp only [h2]
  by_cases hne : cycleNextMask s d delta = d.tags
  · rw [if_neg (by simpa using hne)]
    rw [h2, hne]
    rfl
  · rw [if_pos (by simpa using hne)]
    cases hroot : List.lookup (o, cycleNextMask s d delta)
        ({ s with
            outputs := assocUpsert s.outputs o { d with tags := cycleNextMask s d delta },
            focused_tags := cycleNextMask s d delta } : AppState).layout_roots with
    | none =>
      simp only [hroot]
      rw [assocUpsert_lookup_self]
      rfl
    | some root =>
      simp only [hroot]
      rw [assocUpsert_lookup_self]
      rfl

/-- When `cycle_tag` switches to a tag whose tree exists, focus and the
focus history land on the edge window opposite the motion. -/
theorem cycle_tag_lands (s : AppState) (o : String) (d : OutputData)
    (root : LayoutNode) (delta : Int) (dir : Direction)
    (h1 : s.focused_output = some o) (h2 : s.outputs.lookup o = some d)
    (hne : cycleNextMask s d delta ≠ d.tags)
    (hroot : s.layout_roots.lookup (o, cycleNextMask s d delta) = some root) :
    (cycle_tag s delta dir).focused_window =
      some (find_edge_in_tree root
        (if dir = Direction.right then Direction.left else Direction.right)) ∧
    (cycle_tag s delta dir).tag_focus_history.lookup (o, cycleNextMask s d delta) =
      some (find_edge_in_tree root
        (if dir = Direction.right then Direction.left else Direction.right)) := by
  unfold cycle_tag
  rw [h1]
  simp only [h2]
  rw [if_pos (by simpa using hne)]
  simp only [hroot]
  refine ⟨by trivial, ?_⟩
  exact assocUpsert_lookup_self _ _ _

/-- C3 (amended): when focus navigation wraps, `cycle_tag` moves the
focused monitor's one-hot active tag by one index with upper bound
`min(31, max_occupied_index + 1)` computed from the occupied tags across
ALL monitors (`get_occupied_tags`), wrapping `0 → bound` on Left and
`≥ bound → 0` on Right. -/
theorem claim_C3_cycle_tag_bound (s : AppState) (o : String) (d : OutputData)
    (i : Nat) (h1 : s.focused_output = some o) (h2 : s.outputs.lookup o = some d)
    (h3 : d.tags = 2 ^ i) (h4 : i < 32) :
    ((cycle_tag s 1 Direction.right).outputs.lookup o).map OutputData.tags =
      some (2 ^ (if min 31 (maxOccupiedIdx (get_occupied_tags s) + 1) ≤ i
        then 0 else i + 1) % 2 ^ 32) ∧
    ((cycle_tag s (-1) Direction.left).outputs.lookup o).map OutputData.tags =
      some (2 ^ (if i = 0 then min 31 (maxOccupiedIdx (get_occupied_tags s) + 1)
        else i - 1) % 2 ^ 32) := by
  have hmask : ∀ delta, cycleNextMask s d delta =
      2 ^ cycleNextIdx i (min (maxOccupiedIdx (get_occupied_tags s) + 1) 31) delta
        % 2 ^ 32 := by
    intro delta
    unfold cycleNextMask cycleBoundIdx
    rw [h3, u32TrailingZeros_pow i h4]
  constructor
  · rw [cycle_tag_outputs_tags s o d 1 Direction.right h1 h2, hmask]
    unfold cycleNextIdx
    rw [if_pos (by norm_num)]
    rw [Nat.min_comm]
  · rw [cycle_tag_outputs_tags s o d (-1) Direction.left h1 h2, hmask]
    unfold cycleNextIdx
    rw [if_neg (by norm_num)]
    rw [Nat.min_comm]

/-- C3 counterexample: with monitor A focused on tag index 0 and empty
while a window on monitor B occupies tag index 5, cycling Left lands on
index 6 (global occupancy bound), not on index 1 as the claim's
per-monitor occupancy bound predicts. -/
theorem claim_C3_counterexample :
    ((cycle_tag exC3 (-1) Direction.left).outputs.lookup "A").map OutputData.tags =
      some (2 ^ 6) ∧
    min 31 (maxOccupiedIdx (get_occupied_tags_for_monitor exC3 "A") + 1) = 1 ∧
    (2 ^ 6 : Nat) ≠ 2 ^ 1 := by
  refine ⟨by decide, by decide, by decide⟩

/-- Witness for the amended C3 at the concrete state `exC3`. -/
theorem claim_C3_witness :
    exC3.focused_output = some "A" ∧ exC3.outputs.lookup "A" = some (mkOut g0) ∧
    (mkOut g0).tags = 2 ^ 0 ∧
    ((cycle_tag exC3 (-1) Direction.left).outputs.lookup "A").map OutputData.tags =
      some (2 ^ (if (0 : Nat) = 0
        then min 31 (maxOccupiedIdx (get_occupied_tags exC3) + 1) else 0 - 1)
          % 2 ^ 32) :=
  ⟨rfl, by decide, by decide,
    (claim_C3_cycle_tag_bound exC3 "A" (mkOut g0) 0 rfl (by decide) (by decide)
      (by decide)).2⟩

/-- C4: after a cross-tag wrap entered with `dir = Right` lands on an
existing destination tree, the focused window and the focus-history entry
for that (monitor, tag) equal `find_edge(tree, Left)`; symmetrically for
`dir = Left` and `find_edge(tree, Right)`; and `find_edge` descends left
at {V,L} and {H,U}, right at {V,R} and {H,D}, and right for every
orthogonal split/direction pair. -/
theorem claim_C4_edge_landing (s : AppState) (o : String) (d : OutputData)
    (root : LayoutNode)
    (h1 : s.focused_output = some o) (h2 : s.outputs.lookup o = some d) :
    ((cycleNextMask s d 1 ≠ d.tags →
      s.layout_roots.lookup (o, cycleNextMask s d 1) = some root →
      (cycle_tag s 1 Direction.right).focused_window =
          some (find_edge_in_tree root Direction.left) ∧
        (cycle_tag s 1 Direction.right).tag_focus_history.lookup
            (o, cycleNextMask s d 1) =
          some (find_edge_in_tree root Direction.left)) ∧
    (cycleNextMask s d (-1) ≠ d.tags →
      s.layout_roots.lookup (o, cycleNextMask s d (-1)) = some root →
      (cycle_tag s (-1) Direction.left).focused_window =
          some (find_edge_in_tree root Direction.right) ∧
        (cycle_tag s (-1) Direction.left).tag_focus_history.lookup
            (o, cycleNextMask s d (-1)) =
          some (find_edge_in_tree root Direction.right)) ∧
    (∀ (ra : Rat) (lc rc : LayoutNode),
      find_edge_in_tree (LayoutNode.container SplitType.vertical ra lc rc)
          Direction.left = find_edge_in_tree lc Direction.left ∧
      find_edge_in_tree (LayoutNode.container SplitType.vertical ra lc rc)
          Direction.right = find_edge_in_tree rc Direction.right ∧
      find_edge_in_tree (LayoutNode.container SplitType.horizontal ra lc rc)
          Direction.up = find_edge_in_tree lc Direction.up ∧
      find_edge_in_tree (LayoutNode.container SplitType.horizontal ra lc rc)
          Direction.down = find_edge_in_tree rc Direction.down ∧
      find_edge_in_tree (LayoutNode.container SplitType.vertical ra lc rc)
          Direction.up = find_edge_in_tree rc Direction.up ∧
      find_edge_in_tree (LayoutNode.container SplitType.vertical ra lc rc)
          Direction.down = find_edge_in_tree rc Direction.down ∧
      find_edge_in_tree (LayoutNode.container SplitType.horizontal ra lc rc)
          Direction.left = find_edge_in_tree rc Direction.left ∧
      find_edge_in_tree (LayoutNode.container SplitType.horizontal ra lc rc)
          Direction.right = find_edge_in_tree rc Direction.right)) := by
  refine ⟨?_, ?_, ?_⟩
  · intro hne hroot
    have h := cycle_tag_lands s o d root 1 Direction.right h1 h2 hne hroot
    simpa using h
  · intro hne hroot
    have h := cycle_tag_lands s o d root (-1) Direction.left h1 h2 hne hroot
    simpa using h
  · intro ra lc rc
    exact ⟨rfl, rfl, rfl, rfl, rfl, rfl, rfl, rfl⟩

/-- Witness for C4 at `stC4`: wrapping Right onto occupied tag index 1
focuses the left-edge window (id 4) of its tree. -/
theorem claim_C4_witness :
    stC4.focused_output = some "A" ∧ stC4.outputs.lookup "A" = some (mkOut g0) ∧
    cycleNextMask stC4 (mkOut g0) 1 ≠ (mkOut g0).tags ∧
    stC4.layout_roots.lookup ("A", cycleNextMask stC4 (mkOut g0) 1) = some treeC4 ∧
    (cycle_tag stC4 1 Direction.right).focused_window =
      some (find_edge_in_tree treeC4 Direction.left) :=
  ⟨rfl, by decide, by decide, rfl,
    (((claim_C4_edge_landing stC4 "A" (mkOut g0) treeC4 rfl (by decide)).1)
      (by decide) rfl).1⟩

/-- A successful `find?` over `List.range n` returns the least index
satisfying the predicate. -/
theorem range_find?_least (n : Nat) (p : Nat → Bool) (k : Nat)
    (hf : (List.range n).find? p = some k) :
    p k = true ∧ ∀ m, m < k → p m = false := by
  obtain ⟨hpk, as, bs, heq, has⟩ := List.find?_eq_some.mp hf
  refine ⟨hpk, ?_⟩
  have hlen : as.length < n := by
    have hl := congrArg List.length heq
    simp only [List.length_range, List.length_append, List.length_cons] at hl
    omega
  have htake : List.range as.length = as := by
    have h1 : (List.range n).take as.length = as := by
      rw [heq]; exact List.take_left as (k :: bs)
    rw [List.take_range] at h1
    have hmin : as.length ⊓ n = as.length := Nat.min_eq_left (Nat.le_of_lt hlen)
    rw [hmin] at h1
    exact h1
  have hk : k = as.length := by
    have h1 : (List.range n)[as.length]? = some as.length :=
      List.getElem?_range hlen
    rw [heq, List.getElem?_append_right (Nat.le_refl as.length)] at h1
    simp at h1
    exact h1
  intro m hm
  have hmem : m ∈ as := by
    rw [← htake, List.mem_range]
    omega
  have := has m hmem
  simp at this
  exact this

/-- When some slot in [0..10) is collision-free, `cascadeSlot` picks the
first such slot: its own slot is free and all earlier slots collide. -/
theorem cascadeSlot_least (windows : List WindowData) (f_id : Nat)
    (out_name : String) (win_tags : Nat) (bx byy : Int) (j : Nat) (hj : j < 10)
    (hfree : floatCollision windows f_id out_name win_tags (bx + Int.ofNat j * 25)
      (byy + Int.ofNat j * 25) = false) :
    floatCollision windows f_id out_name win_tags
        (bx + Int.ofNat (cascadeSlot windows f_id out_name win_tags bx byy) * 25)
        (byy + Int.ofNat (cascadeSlot windows f_id out_name win_tags bx byy) * 25) =
      false ∧
    ∀ m, m < cascadeSlot windows f_id out_name win_tags bx byy →
      floatCollision windows f_id out_name win_tags (bx + Int.ofNat m * 25)
        (byy + Int.ofNat m * 25) = true := by
  unfold cascadeSlot
  cases hf : (List.range 10).find? (fun slot =>
      !(floatCollision windows f_id out_name win_tags (bx + Int.ofNat slot * 25)
        (byy + Int.ofNat slot * 25))) with
  | none =>
    exfalso
    have hall := List.find?_eq_none.mp hf j (List.mem_range.mpr hj)
    rw [hfree] at hall
    exact hall rfl
  | some k0 =>
    simp only [Option.getD_some]
    obtain ⟨hpk, hmin⟩ := range_find?_least 10 _ k0 hf
    constructor
    · simpa using hpk
    · intro m hm
      have hmf := hmin m hm
      simpa using hmf

/-- C6: toggling a tiled window to float yields a `float_rect` of
60% x 60% of the monitor's usable area, offset from the centered base by
(k·25, k·25) where k is the first slot in [0..10) not within 5 px of any
existing float on the same (monitor, tag); in particular three successive
toggles on an empty 1000x1000 monitor give (200,200,600,600),
(225,225,600,600) and (250,250,600,600). -/
theorem claim_C6_float_cascade :
    (∀ (windows : List WindowData) (f_id : Nat) (out_name : String)
        (win_tags : Nat) (screen : Geometry) (w60 h60 bx byy : Int) (k : Nat),
      w60 = i32Div (3 * screen.w) 5 →
      h60 = i32Div (3 * screen.h) 5 →
      bx = screen.x + i32Div (screen.w - w60) 2 →
      byy = screen.y + i32Div (screen.h - h60) 2 →
      k = cascadeSlot windows f_id out_name win_tags bx byy →
      (computeFloatGeo windows f_id out_name win_tags screen =
          { x := bx + Int.ofNat k * 25, y := byy + Int.ofNat k * 25,
            w := w60, h := h60 } ∧
        (∀ (j : Nat), j < 10 →
          floatCollision windows f_id out_name win_tags (bx + Int.ofNat j * 25)
              (byy + Int.ofNat j * 25) = false →
          floatCollision windows f_id out_name win_tags (bx + Int.ofNat k * 25)
              (byy + Int.ofNat k * 25) = false ∧
            ∀ m, m < k →
              floatCollision windows f_id out_name win_tags (bx + Int.ofNat m * 25)
                (byy + Int.ofNat m * 25) = true))) ∧
    (exC6a.windows.find? (fun w => w.id == 1)).map WindowData.float_geo =
      some { x := 200, y := 200, w := 600, h := 600 } ∧
    (exC6b.windows.find? (fun w => w.id == 2)).map WindowData.float_geo =
      some { x := 225, y := 225, w := 600, h := 600 } ∧
    (exC6c.windows.find? (fun w => w.id == 3)).map WindowData.float_geo =
      some { x := 250, y := 250, w := 600, h := 600 } := by
  refine ⟨?_, by decide, by decide, by decide⟩
  intro windows f_id out_name win_tags screen w60 h60 bx byy k hw hh hbx hby hk
  subst hw
  subst hh
  subst hbx
  subst hby
  subst hk
  exact ⟨rfl, fun j hj hfree =>
    cascadeSlot_least windows f_id out_name win_tags _ _ j hj hfree⟩

/-- Witness for C6's quantified part at the second toggle of the
concrete cascade: slot 1 is chosen because slot 0 collides. -/
theorem claim_C6_witness :
    ((1 : Nat) < 10 ∧
      floatCollision exC6a.windows 2 "M" 1 (200 + Int.ofNat 1 * 25)
        (200 + Int.ofNat 1 * 25) = false) ∧
    computeFloatGeo exC6a.windows 2 "M" 1 { x := 0, y := 0, w := 1000, h := 1000 } =
      { x := 200 + Int.ofNat 1 * 25, y := 200 + Int.ofNat 1 * 25,
        w := 600, h := 600 } :=
  ⟨⟨by decide, by decide⟩,
    ((claim_C6_float_cascade.1 exC6a.windows 2 "M" 1
      { x := 0, y := 0, w := 1000, h := 1000 } 600 600 200 200 1
      (by decide) (by decide) (by decide) (by decide) (by decide)).1)⟩

/-- For a nonnegative rational, truncation toward zero is the floor. -/
theorem ratTrunc_eq_floor (q : Rat) (h : 0 ≤ q) : ratTruncToInt q = ⌊q⌋ := by
  unfold ratTruncToInt
  rw [Rat.floor_def]
  exact Int.tdiv_eq_ediv (Rat.num_nonneg.mpr h) (Int.natCast_nonneg _)

/-- The truncated product `w * ra` lies in `[0, w]` for `ra ∈ (0,1)`. -/
theorem trunc_mul_bounds (w : Int) (ra : Rat) (hw : 0 ≤ w) (h0 : 0 < ra)
    (h1 : ra < 1) :
    0 ≤ ratTruncToInt ((w : Rat) * ra) ∧ ratTruncToInt ((w : Rat) * ra) ≤ w := by
  have hwq : (0 : Rat) ≤ (w : Rat) := by exact_mod_cast hw
  have hq : 0 ≤ (w : Rat) * ra := mul_nonneg hwq (le_of_lt h0)
  rw [ratTrunc_eq_floor _ hq]
  refine ⟨Int.floor_nonneg.mpr hq, ?_⟩
  have hle : (w : Rat) * ra ≤ (w : Rat) := by
    calc (w : Rat) * ra ≤ (w : Rat) * 1 :=
          mul_le_mul_of_nonneg_left (le_of_lt h1) hwq
    _ = (w : Rat) := mul_one _
  have hf := Int.floor_le_floor hle
  rwa [Int.floor_intCast] at hf

/-- A vertical split at `0 ≤ lw ≤ w` partitions the rectangle. -/
theorem memRect_vsplit (area : Geometry) (lw : Int) (h0 : 0 ≤ lw)
    (h1 : lw ≤ area.w) (p : Int × Int) :
    memRect area p ↔
      (memRect { area with w := lw } p ∨
        memRect { area with x := area.x + lw, w := area.w - lw } p) := by
  simp only [memRect]
  omega

/-- The two halves of a vertical split share no point. -/
theorem memRect_vdisj (area : Geometry) (lw : Int) (p : Int × Int)
    (hp1 : memRect { area with w := lw } p)
    (hp2 : memRect { area with x := area.x + lw, w := area.w - lw } p) : False := by
  simp only [memRect] at hp1 hp2
  omega

/-- The left half of a vertical split lies inside the rectangle. -/
theorem memRect_vsub1 (area : Geometry) (lw : Int) (h1 : lw ≤ area.w)
    (p : Int × Int) (hp : memRect { area with w := lw } p) : memRect area p := by
  simp only [memRect] at hp ⊢
  omega

/-- The right half of a vertical split lies inside the rectangle. -/
theorem memRect_vsub2 (area : Geometry) (lw : Int) (h0 : 0 ≤ lw)
    (p : Int × Int)
    (hp : memRect { area with x := area.x + lw, w := area.w - lw } p) :
    memRect area p := by
  simp only [memRect] at hp ⊢
  omega

/-- A horizontal split at `0 ≤ th ≤ h` partitions the rectangle. -/
theorem memRect_hsplit (area : Geometry) (th : Int) (h0 : 0 ≤ th)
    (h1 : th ≤ area.h) (p : Int × Int) :
    memRect area p ↔
      (memRect { area with h := th } p ∨
        memRect { area with y := area.y + th, h := area.h - th } p) := by
  simp only [memRect]
  omega

/-- The two halves of a horizontal split share no point. -/
theorem memRect_hdisj (area : Geometry) (th : Int) (p : Int × Int)
    (hp1 : memRect { area with h := th } p)
    (hp2 : memRect { area with y := area.y + th, h := area.h - th } p) : False := by
  simp only [memRect] at hp1 hp2
  omega

/-- The top half of a horizontal split lies inside the rectangle. -/
theorem memRect_hsub1 (area : Geometry) (th : Int) (h1 : th ≤ area.h)
    (p : Int × Int) (hp : memRect { area with h := th } p) : memRect area p := by
  simp only [memRect] at hp ⊢
  omega

/-- The bottom half of a horizontal split lies inside the rectangle. -/
theorem memRect_hsub2 (area : Geometry) (th : Int) (h0 : 0 ≤ th)
    (p : Int × Int)
    (hp : memRect { area with y := area.y + th, h := area.h - th } p) :
    memRect area p := by
  simp only [memRect] at hp ⊢
  omega

/-- Main tiling lemma for `calculate_layout`: with valid ratios over a
nonnegative-size rectangle, every emitted rectangle is nonnegative and
inside the area, the emitted rectangles cover exactly the area, and they
are pairwise disjoint. -/
theorem calculate_layout_tiles (n : LayoutNode) :
    ∀ (area : Geometry), ratiosValid n = true → 0 ≤ area.w → 0 ≤ area.h →
      (∀ e ∈ calculate_layout n area,
        0 ≤ e.2.w ∧ 0 ≤ e.2.h ∧ ∀ p, memRect e.2 p → memRect area p) ∧
      (∀ p, memRect area p ↔ ∃ e ∈ calculate_layout n area, memRect e.2 p) ∧
      (calculate_layout n area).Pairwise (fun e1 e2 => disjointRects e1.2 e2.2) := by
  induction n with
  | window u =>
    intro area hv hw hh
    refine ⟨?_, ?_, ?_⟩
    · intro e he
      simp only [calculate_layout, List.mem_singleton] at he
      subst he
      exact ⟨hw, hh, fun p hp => hp⟩
    · intro p
      simp [calculate_layout]
    · simp [calculate_layout]
  | container st ra lc rc ihl ihr =>
    intro area hv hw hh
    have hval : ((0 : Rat) < ra ∧ ra < 1) ∧
        ratiosValid lc = true ∧ ratiosValid rc = true := by
      simp only [ratiosValid, Bool.and_eq_true, decide_eq_true_eq] at hv
      exact ⟨⟨hv.1.1.1, hv.1.1.2⟩, hv.1.2, hv.2⟩
    obtain ⟨⟨hr0, hr1⟩, hvl, hvr⟩ := hval
    cases st with
    | vertical =>
      obtain ⟨hlw0, hlw1⟩ := trunc_mul_bounds area.w ra hw hr0 hr1
      have hcalc :
          calculate_layout (LayoutNode.container SplitType.vertical ra lc rc) area =
            calculate_layout lc { area with w := ratTruncToInt ((area.w : Rat) * ra) } ++
              calculate_layout rc { area with x := area.x + ratTruncToInt ((area.w : Rat) * ra), w := area.w - ratTruncToInt ((area.w : Rat) * ra) } := by
        simp [calculate_layout]
      obtain ⟨ihl1, ihl2, ihl3⟩ :=
        ihl { area with w := ratTruncToInt ((area.w : Rat) * ra) } hvl hlw0 hh
      obtain ⟨ihr1, ihr2, ihr3⟩ :=
        ihr { area with x := area.x + ratTruncToInt ((area.w : Rat) * ra), w := area.w - ratTruncToInt ((area.w : Rat) * ra) } hvr
          (sub_nonneg.mpr hlw1) hh
      refine ⟨?_, ?_, ?_⟩
      · intro e he
        rw [hcalc, List.mem_append] at he
        rcases he with he | he
        · obtain ⟨h1, h2, h3⟩ := ihl1 e he
          exact ⟨h1, h2, fun p hp => memRect_vsub1 area _ hlw1 p (h3 p hp)⟩
        · obtain ⟨h1, h2, h3⟩ := ihr1 e he
          exact ⟨h1, h2, fun p hp => memRect_vsub2 area _ hlw0 p (h3 p hp)⟩
      · intro p
        rw [hcalc, memRect_vsplit area _ hlw0 hlw1 p, ihl2 p, ihr2 p]
        constructor
        · rintro (⟨e, he, hm⟩ | ⟨e, he, hm⟩)
          · exact ⟨e, List.mem_append_left _ he, hm⟩
          · exact ⟨e, List.mem_append_right _ he, hm⟩
        · rintro ⟨e, he, hm⟩
          rw [List.mem_append] at he
          rcases he with he | he
          · exact Or.inl ⟨e, he, hm⟩
          · exact Or.inr ⟨e, he, hm⟩
      · rw [hcalc, List.pairwise_append]
        refine ⟨ihl3, ihr3, ?_⟩
        intro e1 he1 e2 he2
        intro p hp
        obtain ⟨hm1, hm2⟩ := hp
        have hA1 := (ihl1 e1 he1).2.2 p hm1
        have hA2 := (ihr1 e2 he2).2.2 p hm2
        exact memRect_vdisj area _ p hA1 hA2
    | horizontal =>
      obtain ⟨hth0, hth1⟩ := trunc_mul_bounds area.h ra hh hr0 hr1
      have hcalc :
          calculate_layout (LayoutNode.container SplitType.horizontal ra lc rc) area =
            calculate_layout lc { area with h := ratTruncToInt ((area.h : Rat) * ra) } ++
              calculate_layout rc { area with y := area.y + ratTruncToInt ((area.h : Rat) * ra), h := area.h - ratTruncToInt ((area.h : Rat) * ra) } := by
        simp [calculate_layout]
      obtain ⟨ihl1, ihl2, ihl3⟩ :=
        ihl { area with h := ratTruncToInt ((area.h : Rat) * ra) } hvl hw hth0
      obtain ⟨ihr1, ihr2, ihr3⟩ :=
        ihr { area with y := area.y + ratTruncToInt ((area.h : Rat) * ra), h := area.h - ratTruncToInt ((area.h : Rat) * ra) } hvr hw
          (sub_nonneg.mpr hth1)
      refine ⟨?_, ?_, ?_⟩
      · intro e he
        rw [hcalc, List.mem_append] at he
        rcases he with he | he
        · obtain ⟨h1, h2, h3⟩ := ihl1 e he
          exact ⟨h1, h2, fun p hp => memRect_hsub1 area _ hth1 p (h3 p hp)⟩
        · obtain ⟨h1, h2, h3⟩ := ihr1 e he
          exact ⟨h1, h2, fun p hp => memRect_hsub2 area _ hth0 p (h3 p hp)⟩
      · intro p
        rw [hcalc, memRect_hsplit area _ hth0 hth1 p, ihl2 p, ihr2 p]
        constructor
        · rintro (⟨e, he, hm⟩ | ⟨e, he, hm⟩)
          · exact ⟨e, List.mem_append_left _ he, hm⟩
          · exact ⟨e, List.mem_append_right _ he, hm⟩
        · rintro ⟨e, he, hm⟩
          rw [List.mem_append] at he
          rcases he with he | he
          · exact Or.inl ⟨e, he, hm⟩
          · exact Or.inr ⟨e, he, hm⟩
      · rw [hcalc, List.pairwise_append]
        refine ⟨ihl3, ihr3, ?_⟩
        intro e1 he1 e2 he2
        intro p hp
        obtain ⟨hm1, hm2⟩ := hp
        have hA1 := (ihl1 e1 he1).2.2 p hm1
        have hA2 := (ihr1 e2 he2).2.2 p hm2
        exact memRect_hdisj area _ p hA1 hA2

/-- `calculate_layout` emits exactly one entry per leaf, in left-to-right
leaf order. -/
theorem calculate_layout_fst (n : LayoutNode) (area : Geometry) :
    (calculate_layout n area).map Prod.fst = n.leaves := by
  induction n generalizing area with
  | window u => simp [calculate_layout, LayoutNode.leaves]
  | container st ra lc rc ihl ihr =>
    cases st <;> simp [calculate_layout, LayoutNode.leaves, ihl, ihr]

/-- C10: for a tree with ratios in (0,1) and a rectangle of nonnegative
size, `calculate_layout` emits one rectangle per leaf in left-to-right
order; the rectangles are pairwise disjoint and cover exactly the area; a
vertical container hands its left child width `⌊w·ratio⌋` and its right
child the exact remainder, and analogously along height for horizontal. -/
theorem claim_C10_layout_tiling (n : LayoutNode) (area : Geometry)
    (hv : ratiosValid n = true) (hw : 0 ≤ area.w) (hh : 0 ≤ area.h) :
    ((calculate_layout n area).map Prod.fst = n.leaves) ∧
    (∀ p, memRect area p ↔ ∃ e ∈ calculate_layout n area, memRect e.2 p) ∧
    ((calculate_layout n area).Pairwise fun e1 e2 => disjointRects e1.2 e2.2) ∧
    (∀ (ra : Rat) (lc rc : LayoutNode), 0 < ra →
      calculate_layout (LayoutNode.container SplitType.vertical ra lc rc) area =
        calculate_layout lc { area with w := ⌊(area.w : Rat) * ra⌋ } ++
          calculate_layout rc { area with x := area.x + ⌊(area.w : Rat) * ra⌋, w := area.w - ⌊(area.w : Rat) * ra⌋ } ∧
      calculate_layout (LayoutNode.container SplitType.horizontal ra lc rc) area =
        calculate_layout lc { area with h := ⌊(area.h : Rat) * ra⌋ } ++
          calculate_layout rc { area with y := area.y + ⌊(area.h : Rat) * ra⌋, h := area.h - ⌊(area.h : Rat) * ra⌋ }) := by
  obtain ⟨ht1, ht2, ht3⟩ := calculate_layout_tiles n area hv hw hh
  refine ⟨calculate_layout_fst n area, ht2, ht3, ?_⟩
  intro ra lc rc hr0
  have hwq : (0 : Rat) ≤ (area.w : Rat) := by exact_mod_cast hw
  have hhq : (0 : Rat) ≤ (area.h : Rat) := by exact_mod_cast hh
  have hfw : ratTruncToInt ((area.w : Rat) * ra) = ⌊(area.w : Rat) * ra⌋ :=
    ratTrunc_eq_floor _ (mul_nonneg hwq (le_of_lt hr0))
  have hfh : ratTruncToInt ((area.h : Rat) * ra) = ⌊(area.h : Rat) * ra⌋ :=
    ratTrunc_eq_floor _ (mul_nonneg hhq (le_of_lt hr0))
  constructor
  · simp [calculate_layout, hfw]
  · simp [calculate_layout, hfh]

/-- Witness for C10 at a concrete three-leaf tree over a 100x80 area. -/
theorem claim_C10_witness :
    ratiosValid treeC10 = true ∧ (0 : Int) ≤ aC10.w ∧ (0 : Int) ≤ aC10.h ∧
    (calculate_layout treeC10 aC10).map Prod.fst = treeC10.leaves :=
  ⟨by decide, by decide, by decide,
    (claim_C10_layout_tiling treeC10 aC10 (by decide) (by decide) (by decide)).1⟩
